import Mathlib

/-
Verification development for the spacecat chat server.

The embedding models `src/backend/services/services.py` (the SQLite-backed
room directory, message store and knock store) and the handler logic of
`src/backend/server.py` (`Server.handle_client`, `Server._disconnect`,
`Server.join_room`, broadcast dispatch).  Database tables are lists of rows;
`created_at` timestamps are a `Nat` clock (`DB.nextTime`) that strictly
increases with every stored message, matching the append-only insertion
order of the real store.  Network writes are modelled as a list of `Act`
events emitted by each handler.  Python strings are modelled as `String` /
`List Char`; the string-parsing primitives (`str.strip`, `str.split`) are
embedded character by character because several claims hinge on them.
-/

namespace Spacecat

/-- Python whitespace predicate used by `str.strip()` and `str.split()`
(ASCII whitespace; the handler inputs are ASCII command lines). -/
def isWs (c : Char) : Bool :=
  c = ' ' || c = '\t' || c = '\n' || c = '\r' || c = '\x0b' || c = '\x0c'

/-- Python `s.strip()`: remove leading and trailing whitespace. -/
def pyStrip (s : List Char) : List Char :=
  (((s.dropWhile isWs).reverse.dropWhile isWs)).reverse

/-- Helper for Python `s.split(' ', n)`: split off everything up to the
first space, returning the remainder (if a space was found). -/
def splitOnceSpace : List Char → List Char × Option (List Char)
  | [] => ([], none)
  | c :: rest =>
    if c = ' ' then ([], some rest)
    else
      let p := splitOnceSpace rest
      (c :: p.1, p.2)

/-- Python `s.split(' ', 2)`: at most two splits on a single space,
as used by the `/whisper` handler (server.py line 248). -/
def pySplitSpace2 (s : List Char) : List (List Char) :=
  match splitOnceSpace s with
  | (a, none) => [a]
  | (a, some r1) =>
    match splitOnceSpace r1 with
    | (b, none) => [a, b]
    | (b, some r2) => [a, b, r2]

/-- Accumulator pass for Python `s.split()` (split on whitespace runs,
no empty tokens). -/
def splitWsAux : List Char → List Char → List (List Char)
  | [], acc => if acc.isEmpty then [] else [acc.reverse]
  | c :: rest, acc =>
    if isWs c then
      if acc.isEmpty then splitWsAux rest [] else acc.reverse :: splitWsAux rest []
    else splitWsAux rest (c :: acc)

/-- Python `s.split()` with no separator argument, as used by the `/room`,
`/enter` and `/knock` handlers. -/
def pySplitWs (s : List Char) : List (List Char) :=
  splitWsAux s []

/-- Python substring test `needle in hay` on strings. -/
def containsSub : List Char → List Char → Bool
  | n, [] => n.isEmpty
  | n, c :: t => n.isPrefixOf (c :: t) || containsSub n t

/-- Room-name extraction of the `/room` handler (server.py lines 299-303):
the first whitespace token containing neither "/" nor "--", defaulting to
the empty string. -/
def roomNameOf (args : List (List Char)) : List Char :=
  match args.find? (fun a => !(containsSub ['/'] a) && !(containsSub ['-', '-'] a)) with
  | some a => a
  | none => []

/-- Row of the `rooms` table joined with the creator's username, as
returned by `get_room_info` (services.py lines 253-277). -/
structure RoomRec where
  name : String
  locked : Bool
  createdBy : Option String
deriving DecidableEq

/-- Row of the `messages` table (services.py lines 77-88); `time` is the
`created_at` clock value. -/
structure MsgRec where
  room : String
  author : String
  mtype : String
  content : String
  time : Nat
deriving DecidableEq

/-- Row of the `room_memberships` table (services.py lines 63-74);
`UNIQUE(room_id, user_id)` makes (room, user) pairs unique. -/
structure MemRow where
  room : String
  user : String
  isHost : Bool
deriving DecidableEq

/-- Row of the `knock_requests` table (services.py lines 90-99). -/
structure KnockRow where
  requester : String
  room : String
  accepted : Bool
deriving DecidableEq

/-- The persistent store: `users` holds (username, password-hash) pairs; the
SHA-256 hash is abstracted as an opaque injective encoding, so hashes are
compared as the stored strings themselves. -/
structure DB where
  users : List (String × String)
  rooms : List RoomRec
  memberships : List MemRow
  messages : List MsgRec
  knocks : List KnockRow
  nextTime : Nat
deriving DecidableEq

/-- Embeds services.get_user_by_username (services.py lines 200-223),
restricted to the fields the handlers consume. -/
def get_user_by_username (db : DB) (username : String) : Option (String × String) :=
  db.users.find? (fun p => p.1 == username)

/-- Embeds services.user_exists (services.py lines 189-198). -/
def user_exists (db : DB) (username : String) : Bool :=
  (get_user_by_username db username).isSome

/-- Embeds services.create_user (services.py lines 124-145): the UNIQUE
constraint on `username` makes a duplicate insert fail. -/
def create_user (db : DB) (username password : String) : DB × Bool :=
  if user_exists db username then (db, false)
  else ({ db with users := db.users ++ [(username, password)] }, true)

/-- Embeds services.authenticate_user (services.py lines 147-187): returns
the user row when username and password hash match (the `last_login`
update touches no field the core reads and is omitted). -/
def authenticate_user (db : DB) (username password : String) : Option (String × String) :=
  db.users.find? (fun p => p.1 == username && p.2 == password)

/-- Embeds services.get_room_info (services.py lines 253-277): lookup of a
room row by its unique name, with the creator resolved to a username. -/
def get_room_info (db : DB) (roomName : String) : Option RoomRec :=
  db.rooms.find? (fun r => r.name == roomName)

/-- Embeds services.create_room (services.py lines 225-251): the UNIQUE
constraint on `name` rejects duplicates; an unknown creator username is
stored as NULL. -/
def create_room (db : DB) (name : String) (locked : Bool) (creator : Option String) : DB × Bool :=
  if (get_room_info db name).isSome then (db, false)
  else
    let createdBy := creator.bind (fun u => if user_exists db u then some u else none)
    ({ db with rooms := db.rooms ++ [⟨name, locked, createdBy⟩] }, true)

/-- Embeds services.add_room_member (services.py lines 311-332): fails when
user or room is missing, otherwise INSERT OR IGNORE of the membership row.
Modelled from the spec: server.py calls `db.join_room(user, room, is_host)`
(Room Directory contract `join_room(user, room, is_host)→bool`, spec section 6),
which services.py does not define; its behaviour follows the spec's
Membership model and coincides with `add_room_member`. -/
def join_room (db : DB) (username roomName : String) (isHost : Bool) : DB × Bool :=
  if user_exists db username && (get_room_info db roomName).isSome then
    if db.memberships.any (fun r => r.room == roomName && r.user == username) then (db, true)
    else ({ db with memberships := db.memberships ++ [⟨roomName, username, isHost⟩] }, true)
  else (db, false)

/-- Embeds services.remove_room_member (services.py lines 334-348): DELETE
of the (room, user) membership rows, succeeding even when nothing matches.
Modelled from the spec: server.py calls `db.leave_room(user, room)`
(Room Directory contract `leave_room(user, room)→bool`, spec section 6),
which services.py does not define; its behaviour follows the spec's
Membership model and coincides with `remove_room_member`. -/
def leave_room (db : DB) (username roomName : String) : DB × Bool :=
  ({ db with memberships :=
      db.memberships.filter (fun r => !(r.room == roomName && r.user == username)) }, true)

/-- Embeds services.save_message (services.py lines 389-406): the INSERT
... SELECT stores one row exactly when both the room and the user exist
(the cross join is empty otherwise), and returns True either way. -/
def save_message (db : DB) (username roomName content mtype : String) : DB × Bool :=
  if user_exists db username && (get_room_info db roomName).isSome then
    ({ db with
        messages := db.messages ++ [⟨roomName, username, mtype, content, db.nextTime⟩],
        nextTime := db.nextTime + 1 }, true)
  else (db, true)

/-- Embeds services.save_request (services.py lines 408-429): the INSERT
... SELECT stores one pending row exactly when both the room and the user
exist, unconditionally (no dedup), and returns True either way. -/
def save_request (db : DB) (username roomName : String) : DB × Bool :=
  if user_exists db username && (get_room_info db roomName).isSome then
    ({ db with knocks := db.knocks ++ [⟨username, roomName, false⟩] }, true)
  else (db, true)

/-- Row filter of the history query of services.get_room_history: the JOINs
keep rows whose author and room resolve, and the WHERE clause fixes the
room name. -/
def historyRowOk (db : DB) (roomName : String) (m : MsgRec) : Bool :=
  m.room == roomName && user_exists db m.author && (get_room_info db m.room).isSome

/-- Embeds services.get_room_history (services.py lines 431-457): matching
rows ordered by `created_at` DESC, LIMIT `limit`, then reversed into
chronological order. -/
def get_room_history (db : DB) (roomName : String) (limit : Nat) : List MsgRec :=
  (((db.messages.filter (historyRowOk db roomName)).insertionSort
      (fun a b => b.time ≤ a.time)).take limit).reverse

/-- Embeds services.get_requests (services.py lines 459-478): usernames of
the pending (accepted = 0) knock rows of the room whose requester and room
resolve through the JOINs. -/
def get_requests (db : DB) (roomName : String) : List String :=
  (db.knocks.filter (fun k =>
      k.room == roomName && !k.accepted && user_exists db k.requester
        && (get_room_info db k.room).isSome)).map (fun k => k.requester)

/-- Message templates of the lines the server writes, one constructor per
format string of server.py (payload fields kept, fixed text elided). -/
inductive Tmpl where
  | alreadyOnline (u : String)
  | welcomeBack (u : String)
  | welcomeNew (u : String)
  | invalidPassword
  | errorCreatingAccount
  | chatMsg (room sender content : String)
  | usageWhisper
  | userNotFound (target : String)
  | emptyWhisper
  | whisperDeliver (room sender content : String)
  | whisperEcho (target content : String)
  | usageRoom
  | roomExists (n : String)
  | createdRoom (locked : Bool) (n : String)
  | errorCreatingRoom (n : String)
  | usageEnter
  | roomNotFound (n : String)
  | roomLocked (n : String)
  | historyHeader (room : String)
  | historyLine (time : Nat) (author content : String)
  | noHistory (room : String)
  | usageKnock
  | knockNoRoom (n : String)
  | selfKnock
  | knockUnlocked (n : String)
  | invitationSent
  | onlyHost
  | notPrivate
  | noOneAtDoor
  | leftRoom (u room : String)
  | joinedRoom (u room : String)
  | leftDisconnect (u room : String)
  | goodbye
  | unknownCommand
deriving DecidableEq

/-- Output events of a handler: a direct `send_to(writer, ...)`, a call of
`Server.broadcast(msg, room, exclude)`, or the server-side-only
`logger.info(...)` of the `/peephole` handler. -/
inductive Act where
  | sendTo (w : Nat) (m : Tmpl)
  | bcast (room : String) (m : Tmpl) (exclude : Option Nat)
  | logOnly (requesters : List String)
deriving DecidableEq

/-- Whether an event is a direct reply to some connection. -/
def Act.isSendTo : Act → Bool
  | .sendTo _ _ => true
  | _ => false

/-- In-memory server state (server.py lines 12-15): `clients` is the
writer-to-username dict, `activeUsers` the set of live usernames,
`userRooms` the username-to-current-room dict; writers are opaque ids. -/
structure ServerState where
  db : DB
  clients : List (Nat × String)
  activeUsers : List String
  userRooms : List (String × String)
deriving DecidableEq

/-- Python `dict` lookup on an association list (first binding wins; the
modelled dicts never hold a key twice). -/
def lookup (m : List (String × String)) (k : String) : Option String :=
  (m.find? (fun p => p.1 == k)).map (fun p => p.2)

/-- Python `dict.get(k, d)`. -/
def lookupD (m : List (String × String)) (k d : String) : String :=
  (lookup m k).getD d

/-- Python `dict[k] = v`: overwrite the binding or append a new one. -/
def setKey (m : List (String × String)) (k v : String) : List (String × String) :=
  if (m.find? (fun p => p.1 == k)).isSome then
    m.map (fun p => if p.1 == k then (k, v) else p)
  else m ++ [(k, v)]

/-- Python `dict.pop(k, None)`. -/
def removeKey (m : List (String × String)) (k : String) : List (String × String) :=
  m.filter (fun p => !(p.1 == k))

/-- Current room of a user as computed at the top of the command loop:
`self.user_rooms.get(username, "general")` (server.py line 226). -/
def currentRoomOf (st : ServerState) (username : String) : String :=
  lookupD st.userRooms username "general"

/-- Username of a writer: `self.clients[writer]` membership lookup. -/
def clientUser (st : ServerState) (w : Nat) : Option String :=
  (st.clients.find? (fun p => p.1 == w)).map (fun p => p.2)

/-- Embeds Server._get_writer (server.py lines 28-36): None unless the
username is active, else the first writer bound to it. -/
def getWriter (st : ServerState) (username : String) : Option Nat :=
  if username ∈ st.activeUsers then
    (st.clients.find? (fun p => p.2 == username)).map (fun p => p.1)
  else none

/-- Embeds Server.join_room (server.py lines 113-130): persist the join;
on success update the user's current room and broadcast the join notice. -/
def serverJoinRoom (st : ServerState) (username roomName : String) (isHost : Bool) :
    ServerState × Bool × List Act :=
  let p := join_room st.db username roomName isHost
  if p.2 then
    ({ st with db := p.1, userRooms := setKey st.userRooms username roomName },
     true, [.bcast roomName (.joinedRoom username roomName) none])
  else ({ st with db := p.1 }, false, [])

/-- Leave-current-room step shared by the `/room` and `/enter` handlers
(server.py lines 322-327 and 360-365): guarded by Python truthiness of the
current room name, so the empty-named room is never left. -/
def leaveCurrentStep (st : ServerState) (username : String) : ServerState × List Act :=
  let cur := currentRoomOf st username
  if cur ≠ "" then
    ({ st with db := (leave_room st.db username cur).1 },
     [.bcast cur (.leftRoom username cur) none])
  else (st, [])

/-- Embeds the `/send` handler (server.py lines 234-245); `content` is
`message[6:]`.  The Bool result of `db.save_message` is discarded by the
source, and `saveOk` injects the success or failure of that persistence
call (failure = the transaction raised, so no row was stored). -/
def sendHandler (st : ServerState) (w : Nat) (sender : String) (content : List Char)
    (saveOk : Bool) : ServerState × List Act :=
  if pyStrip content ≠ [] then
    let cur := currentRoomOf st sender
    let saved := if saveOk then save_message st.db sender cur (String.mk content) "chat"
                 else (st.db, false)
    ({ st with db := saved.1 },
     [.bcast cur (.chatMsg cur sender (String.mk content)) (some w)])
  else (st, [])

/-- Embeds the `/whisper` handler (server.py lines 247-283); `msg` is the
whole stripped input line, split by `message.split(' ', 2)`. -/
def whisperHandler (st : ServerState) (w : Nat) (sender : String) (msg : List Char) :
    ServerState × List Act :=
  let cur := currentRoomOf st sender
  let args := pySplitSpace2 msg
  if args.length < 3 then (st, [.sendTo w .usageWhisper])
  else
    let target := String.mk (args.getD 1 [])
    let content := args.getD 2 []
    if target ∉ st.activeUsers ∨ lookup st.userRooms target ≠ some cur then
      (st, [.sendTo w (.userNotFound target)])
    else if pyStrip content = [] then (st, [.sendTo w .emptyWhisper])
    else
      match getWriter st target with
      | some tw =>
        ({ st with db := (save_message st.db sender cur (String.mk content) "whisper").1 },
         [.sendTo tw (.whisperDeliver cur sender (String.mk content)),
          .sendTo w (.whisperEcho target (String.mk content))])
      | none => (st, [])

/-- Embeds the `/room` handler (server.py lines 288-334); `msg` is the
whole stripped input line. -/
def roomHandler (st : ServerState) (w : Nat) (sender : String) (msg : List Char) :
    ServerState × List Act :=
  let args := pySplitWs msg
  if args.length < 2 then (st, [.sendTo w .usageRoom])
  else
    let isLocked := args.contains ("--locked".data)
    let roomName := String.mk (roomNameOf args)
    if (get_room_info st.db roomName).isSome then (st, [.sendTo w (.roomExists roomName)])
    else
      let created := create_room st.db roomName isLocked (some sender)
      if created.2 then
        let stA := { st with db := created.1 }
        let left := leaveCurrentStep stA sender
        let joined := serverJoinRoom left.1 sender roomName true
        (joined.1, [.sendTo w (.createdRoom isLocked roomName)] ++ left.2 ++ joined.2.2)
      else (st, [.sendTo w (.errorCreatingRoom roomName)])

/-- Embeds the `/enter` handler (server.py lines 336-368) for a parsed
room name (`args[1]` of the whitespace split, hence never empty). -/
def enterHandler (st : ServerState) (w : Nat) (sender roomName : String) :
    ServerState × List Act :=
  match get_room_info st.db roomName with
  | none => (st, [.sendTo w (.roomNotFound roomName)])
  | some info =>
    if info.locked then (st, [.sendTo w (.roomLocked roomName)])
    else
      let left := leaveCurrentStep st sender
      let joined := serverJoinRoom left.1 sender roomName false
      (joined.1, left.2 ++ joined.2.2)

/-- Messages the `/history` handler prints after the header: whispers are
skipped at display time (server.py lines 375-382). -/
def displayedHistory (st : ServerState) (sender : String) : List MsgRec :=
  (get_room_history st.db (currentRoomOf st sender) 20).filter
    (fun m => !(m.mtype == "whisper"))

/-- Embeds the `/history` handler (server.py lines 370-384): the store is
queried with limit 20; an empty result yields the no-history reply. -/
def historyHandler (st : ServerState) (w : Nat) (sender : String) : List Act :=
  let cur := currentRoomOf st sender
  let history := get_room_history st.db cur 20
  if history ≠ [] then
    .sendTo w (.historyHeader cur) ::
      (displayedHistory st sender).map (fun m => .sendTo w (.historyLine m.time m.author m.content))
  else [.sendTo w (.noHistory cur)]

/-- Embeds the `/knock` handler (server.py lines 385-425) for a parsed
room name (`args[1]`). -/
def knockHandler (st : ServerState) (w : Nat) (sender roomName : String) :
    ServerState × List Act :=
  match get_room_info st.db roomName with
  | none => (st, [.sendTo w (.knockNoRoom roomName)])
  | some info =>
    if info.createdBy = some sender then (st, [.sendTo w .selfKnock])
    else if !info.locked then (st, [.sendTo w (.knockUnlocked roomName)])
    else
      ({ st with db := (save_request st.db sender roomName).1 },
       [.sendTo w .invitationSent])

/-- Embeds the `/peephole` handler (server.py lines 426-451).  When the
caller's room cannot be resolved the subscription `room_info['created_by']`
raises and the loop's generic handler swallows it (no reply); when the
pending-request list is non-empty the source only calls
`self.logger.info(requests)` — nothing is sent to the host. -/
def peepholeHandler (st : ServerState) (w : Nat) (sender : String) : List Act :=
  match get_room_info st.db (currentRoomOf st sender) with
  | none => []
  | some info =>
    if info.createdBy ≠ some sender then [.sendTo w .onlyHost]
    else if !info.locked then [.sendTo w .notPrivate]
    else
      let requests := get_requests st.db (currentRoomOf st sender)
      if requests = [] then [.sendTo w .noOneAtDoor]
      else [.logOnly requests]

/-- Embeds Server._disconnect (server.py lines 38-63): drop the writer and
username from the live tracking, release the persistent membership and the
room binding when the current room name is truthy, and broadcast the
departure notice to that room. -/
def disconnectWriter (st : ServerState) (w : Nat) : ServerState × List Act :=
  match clientUser st w with
  | none => (st, [])
  | some username =>
    let cur := lookupD st.userRooms username "general"
    let clients2 := st.clients.filter (fun p => !(p.1 == w))
    let active2 := st.activeUsers.filter (fun u => !(u == username))
    let st2 :=
      if cur ≠ "" then
        { st with db := (leave_room st.db username cur).1,
                  clients := clients2, activeUsers := active2,
                  userRooms := removeKey st.userRooms username }
      else { st with clients := clients2, activeUsers := active2 }
    (st2, [.bcast cur (.leftDisconnect username cur) none])

/-- Result classification of one authentication exchange. -/
inductive AuthResult where
  | rejectedLive
  | loggedIn
  | created
  | badPassword
  | createFailed
deriving DecidableEq

/-- Python `set.add` on the modelled active-user set. -/
def insertUser (l : List String) (u : String) : List String :=
  if u ∈ l then l else l ++ [u]

/-- Embeds one round of the authentication loop (server.py lines 139-211)
for a parsed non-empty username and non-empty password: the live-username
check precedes the password prompt; success registers the session and
joins "general". -/
def authAttempt (st : ServerState) (w : Nat) (username password : String) :
    ServerState × List Act × AuthResult :=
  if username ∈ st.activeUsers then
    (st, [.sendTo w (.alreadyOnline username)], .rejectedLive)
  else
    match authenticate_user st.db username password with
    | some _ =>
      let st1 := { st with clients := st.clients ++ [(w, username)],
                           activeUsers := insertUser st.activeUsers username }
      let joined := serverJoinRoom st1 username "general" false
      (joined.1, [.sendTo w (.welcomeBack username)] ++ joined.2.2, .loggedIn)
    | none =>
      if !(user_exists st.db username) then
        let createdP := create_user st.db username password
        if createdP.2 then
          let st1 := { st with db := createdP.1,
                               clients := st.clients ++ [(w, username)],
                               activeUsers := insertUser st.activeUsers username }
          let joined := serverJoinRoom st1 username "general" false
          (joined.1, [.sendTo w (.welcomeNew username)] ++ joined.2.2, .created)
        else ({ st with db := createdP.1 }, [.sendTo w .errorCreatingAccount], .createFailed)
      else (st, [.sendTo w .invalidPassword], .badPassword)

/-- Room-changing commands of one user: a raw `/room ...` line or a parsed
`/enter` room name. -/
inductive Cmd where
  | mkRoom (line : List Char)
  | enter (name : String)
deriving DecidableEq

/-- Create/leave/join micro-states of the `/room` handler for a parsed
room name: after room creation, after leaving the current room, after the
join.  Branches that mutate nothing contribute a single unchanged state. -/
def roomCreateJoin (st : ServerState) (sender roomName : String) (isLocked : Bool) :
    List ServerState :=
  if (get_room_info st.db roomName).isSome then [st]
  else
    let created := create_room st.db roomName isLocked (some sender)
    if created.2 then
      let stA := { st with db := created.1 }
      let stB := (leaveCurrentStep stA sender).1
      let stC := (serverJoinRoom stB sender roomName true).1
      [stA, stB, stC]
    else [{ st with db := created.1 }]

/-- States after each persistence micro-operation of the `/room` handler. -/
def roomTrace (st : ServerState) (sender : String) (msg : List Char) : List ServerState :=
  let args := pySplitWs msg
  if args.length < 2 then [st]
  else roomCreateJoin st sender (String.mk (roomNameOf args)) (args.contains ("--locked".data))

/-- States after each persistence micro-operation of the `/enter` handler:
after leaving the current room and after the join. -/
def enterTrace (st : ServerState) (sender roomName : String) : List ServerState :=
  match get_room_info st.db roomName with
  | none => [st]
  | some info =>
    if info.locked then [st]
    else
      let stB := (leaveCurrentStep st sender).1
      let stC := (serverJoinRoom stB sender roomName false).1
      [stB, stC]

/-- Micro-operation state trace of one command. -/
def cmdTrace (st : ServerState) (sender : String) : Cmd → List ServerState
  | .mkRoom line => roomTrace st sender line
  | .enter name => enterTrace st sender name

/-- State after a whole command: the last state of its trace. -/
def cmdFinal (st : ServerState) (sender : String) (c : Cmd) : ServerState :=
  (cmdTrace st sender c).getLastD st

/-- All intermediate states visited while one user runs a command
sequence (excluding the start state). -/
def runStates (st : ServerState) (sender : String) : List Cmd → List ServerState
  | [] => []
  | c :: cs => cmdTrace st sender c ++ runStates (cmdFinal st sender c) sender cs

/-- Number of persistent membership rows of a user. -/
def memCount (st : ServerState) (u : String) : Nat :=
  (st.db.memberships.filter (fun r => r.user == u)).length

/-- A `/room` line (already stripped, as the dispatcher delivers it) that
parses to a non-empty room name, or any `/enter` (whose argument, a
`str.split()` token, is never empty). -/
def goodCmd : Cmd → Prop
  | .mkRoom line => roomNameOf (pySplitWs line) ≠ []
  | .enter name => name ≠ ""

instance : DecidablePred goodCmd := fun c => by
  cases c <;> simp [goodCmd] <;> infer_instance

/-- Per-user state invariant maintained by the room-changing commands:
every membership row of the user lies in their tracked current room, that
room name is non-empty, and membership rows never repeat a (room, user)
pair (the table's UNIQUE constraint). -/
def Inv (st : ServerState) (u : String) : Prop :=
  (∀ r ∈ st.db.memberships, r.user = u → r.room = currentRoomOf st u) ∧
  currentRoomOf st u ≠ "" ∧
  (st.db.memberships.map (fun r => (r.room, r.user))).Nodup

instance (st : ServerState) (u : String) : Decidable (Inv st u) := by
  unfold Inv; infer_instance

/-- Baseline store: the seeded "general" room, one registered user "u". -/
def db0 : DB :=
  { users := [("u", "pw")], rooms := [⟨"general", false, none⟩],
    memberships := [⟨"general", "u", false⟩], messages := [], knocks := [],
    nextTime := 0 }

/-- Baseline live state: user "u" online in "general" on writer 1. -/
def st0 : ServerState :=
  { db := db0, clients := [(1, "u")], activeUsers := ["u"],
    userRooms := [("u", "general")] }

/-- Store with a locked room "secret" hosted by "A" and a second user "B". -/
def dbK : DB :=
  { users := [("A", "pa"), ("B", "pb")],
    rooms := [⟨"general", false, none⟩, ⟨"secret", true, some "A"⟩],
    memberships := [⟨"secret", "A", true⟩, ⟨"general", "B", false⟩],
    messages := [], knocks := [], nextTime := 0 }

/-- Live state over `dbK`: host "A" sits in "secret", "B" in "general". -/
def stK : ServerState :=
  { db := dbK, clients := [(1, "A"), (2, "B")], activeUsers := ["A", "B"],
    userRooms := [("A", "secret"), ("B", "general")] }

/-- `stK` after "B" knocked once on "secret". -/
def stK1 : ServerState :=
  (knockHandler stK 2 "B" "secret").1

/-- Store of room "g" holding 21 chat messages at times 0..20. -/
def db21 : DB :=
  { users := [("u", "pw")], rooms := [⟨"g", false, none⟩], memberships := [],
    messages := (List.range 21).map (fun i => ⟨"g", "u", "chat", "m", i⟩),
    knocks := [], nextTime := 21 }

/-- Live state over `db21`: user "u" in room "g". -/
def st21 : ServerState :=
  { db := db21, clients := [(1, "u")], activeUsers := ["u"], userRooms := [("u", "g")] }

/-- Live state with "A" and "B" in "general" and "C" in "other". -/
def stW : ServerState :=
  { db := { users := [("A", "pa"), ("B", "pb"), ("C", "pc")],
            rooms := [⟨"general", false, none⟩, ⟨"other", false, none⟩],
            memberships := [], messages := [], knocks := [], nextTime := 0 },
    clients := [(1, "A"), (2, "B"), (3, "C")], activeUsers := ["A", "B", "C"],
    userRooms := [("A", "general"), ("B", "general"), ("C", "other")] }

/-- Live state of a user whose current room is the empty-named room (the
state `/room --locked` leaves behind, cf. the `/room` parsing quirk). -/
def stE : ServerState :=
  { db := { users := [("u", "pw")],
            rooms := [⟨"general", false, none⟩, ⟨"", true, some "u"⟩],
            memberships := [⟨"", "u", true⟩], messages := [], knocks := [],
            nextTime := 0 },
    clients := [(1, "u")], activeUsers := ["u"], userRooms := [("u", "")] }

/-- Definition following the words of claim C2 (not the source): up to 50
of the most recent chat-type messages of the room, in chronological order. -/
def claimHistory50 (db : DB) (roomName : String) : List MsgRec :=
  (((db.messages.filter (fun m => m.room == roomName && m.mtype == "chat")).insertionSort
      (fun a b => b.time ≤ a.time)).take 50).reverse

/-- Well-formedness of the live-session registry: no username is bound to
two writers, and every bound username is in the active set. -/
def RegistryWF (st : ServerState) : Prop :=
  (st.clients.map (fun p => p.2)).Nodup ∧ ∀ p ∈ st.clients, p.2 ∈ st.activeUsers

instance (st : ServerState) : Decidable (RegistryWF st) := by
  unfold RegistryWF; infer_instance

/-- C10: the `/room` handler extracts the room name as the first
whitespace token containing neither "/" nor "--"; on the line
"/room --locked" no token qualifies, the extracted name is the empty
string, and the server proceeds to create the locked room named "" and to
join it (current room becomes "", membership row in "") instead of
rejecting the command. -/
theorem c10_empty_room_name_created :
    roomNameOf (pySplitWs ("/room --locked".data)) = [] ∧
    (roomHandler st0 1 "u" ("/room --locked".data)).1.db.rooms =
      [⟨"general", false, none⟩, ⟨"", true, some "u"⟩] ∧
    (roomHandler st0 1 "u" ("/room --locked".data)).1.db.memberships =
      [⟨"", "u", true⟩] ∧
    currentRoomOf (roomHandler st0 1 "u" ("/room --locked".data)).1 "u" = "" := by
  decide

/-- C3 (counterexample to the claimed reply): in `stK1` — "B" has one
pending knock on the locked room "secret" hosted by "A" — the pending list
is exactly ["B"], yet host "A"'s `/peephole` sends nothing to any
connection: the source only logs the list server-side
(`self.logger.info(requests)`, server.py line 451). -/
theorem c3_peephole_sends_nothing :
    get_requests stK1.db "secret" = ["B"] ∧
    peepholeHandler stK1 1 "A" = [.logOnly ["B"]] ∧
    ∀ a ∈ peepholeHandler stK1 1 "A", a.isSendTo = false := by
  decide

/-- C4 (counterexample): a `/send hi` whose persistence call fails
(`saveOk = false`, so no message row is stored — the final state equals
the start state) still broadcasts to the room and sends no failure reply
to the client, contradicting the claim that the broadcast is performed
only when persistence succeeded. -/
theorem c4_counterexample :
    (sendHandler st0 1 "u" ("hi".data) false).1 = st0 ∧
    (sendHandler st0 1 "u" ("hi".data) false).2 =
      [.bcast "general" (.chatMsg "general" "u" "hi") (some 1)] ∧
    ∀ a ∈ (sendHandler st0 1 "u" ("hi".data) false).2, a.isSendTo = false := by
  decide

/-- C4 (amended): for every `/send` with non-empty trimmed content, the
room broadcast (to the current room, excluding the sender) is emitted
regardless of whether the persistence call succeeded, and no reply —
in particular no failure report — is ever sent to the client; the
`db.save_message` result is discarded by the handler. -/
theorem c4_send_broadcasts_regardless (st : ServerState) (w : Nat) (sender : String)
    (content : List Char) (h : pyStrip content ≠ []) :
    (sendHandler st w sender content false).2 = (sendHandler st w sender content true).2 ∧
    (sendHandler st w sender content false).2 =
      [.bcast (currentRoomOf st sender)
        (.chatMsg (currentRoomOf st sender) sender (String.mk content)) (some w)] ∧
    ∀ a ∈ (sendHandler st w sender content false).2, a.isSendTo = false := by
  refine ⟨?_, ?_, ?_⟩ <;> simp [sendHandler, h, Act.isSendTo]

/-- Witness for `c4_send_broadcasts_regardless` at `/send hi` in `st0`. -/
theorem c4_witness :
    pyStrip ("hi".data) ≠ [] ∧
    ((sendHandler st0 1 "u" ("hi".data) false).2 = (sendHandler st0 1 "u" ("hi".data) true).2 ∧
     (sendHandler st0 1 "u" ("hi".data) false).2 =
       [.bcast (currentRoomOf st0 "u")
         (.chatMsg (currentRoomOf st0 "u") "u" (String.mk ("hi".data))) (some 1)] ∧
     ∀ a ∈ (sendHandler st0 1 "u" ("hi".data) false).2, a.isSendTo = false) :=
  ⟨by decide, c4_send_broadcasts_regardless st0 1 "u" ("hi".data) (by decide)⟩

/-- C5 (counterexample): with a pending request of "B" for the locked
room "secret" already recorded (`stK1`), a second identical `/knock`
changes the persistent state — it appends a duplicate pending row, so the
pending list becomes ["B", "B"] — contradicting idempotency. -/
theorem c5_counterexample :
    (knockHandler stK1 2 "B" "secret").1 ≠ stK1 ∧
    (knockHandler stK1 2 "B" "secret").1.db.knocks =
      [⟨"B", "secret", false⟩, ⟨"B", "secret", false⟩] ∧
    get_requests (knockHandler stK1 2 "B" "secret").1.db "secret" = ["B", "B"] := by
  decide

/-- C5 (amended): knocking is not idempotent; every successful `/knock`
on an existing locked room not created by the caller appends one more
pending-request row (duplicates accumulate, no dedup), and replies
"invitation sent". -/
theorem c5_knock_appends_row (st : ServerState) (w : Nat) (u r : String) (info : RoomRec)
    (h1 : get_room_info st.db r = some info) (h2 : info.createdBy ≠ some u)
    (h3 : info.locked = true) (h4 : user_exists st.db u = true) :
    (knockHandler st w u r).1.db.knocks = st.db.knocks ++ [⟨u, r, false⟩] ∧
    (knockHandler st w u r).2 = [.sendTo w .invitationSent] := by
  have hs : (get_room_info st.db r).isSome := by rw [h1]; rfl
  constructor <;> simp [knockHandler, h1, h2, h3, save_request, h4, hs]

/-- Witness for `c5_knock_appends_row`: "B" knocks on "secret" in `stK1`,
appending a second pending row. -/
theorem c5_witness :
    (get_room_info stK1.db "secret" = some ⟨"secret", true, some "A"⟩ ∧
     (⟨"secret", true, some "A"⟩ : RoomRec).createdBy ≠ some "B" ∧
     (⟨"secret", true, some "A"⟩ : RoomRec).locked = true ∧
     user_exists stK1.db "B" = true) ∧
    ((knockHandler stK1 2 "B" "secret").1.db.knocks = stK1.db.knocks ++ [⟨"B", "secret", false⟩] ∧
     (knockHandler stK1 2 "B" "secret").2 = [.sendTo 2 .invitationSent]) :=
  ⟨by decide,
   c5_knock_appends_row stK1 2 "B" "secret" ⟨"secret", true, some "A"⟩
     (by decide) (by decide) (by decide) (by decide)⟩

/-- C9: `/enter <name>` on a nonexistent or locked room is refused with an
error reply and leaves the whole server state (current room, persistent
memberships, room directory, knock store) unchanged; the knock store is
never consulted, so a locked room is refused regardless of knock status. -/
theorem c9_enter_refusal (st : ServerState) (w : Nat) (sender roomName : String)
    (h : get_room_info st.db roomName = none ∨
         ∃ info, get_room_info st.db roomName = some info ∧ info.locked = true) :
    (enterHandler st w sender roomName).1 = st ∧
    ((get_room_info st.db roomName = none ∧
        (enterHandler st w sender roomName).2 = [.sendTo w (.roomNotFound roomName)]) ∨
     (∃ info, get_room_info st.db roomName = some info ∧ info.locked = true ∧
        (enterHandler st w sender roomName).2 = [.sendTo w (.roomLocked roomName)])) := by
  rcases h with h | ⟨info, hi, hl⟩
  · exact ⟨by simp [enterHandler, h], Or.inl ⟨h, by simp [enterHandler, h]⟩⟩
  · exact ⟨by simp [enterHandler, hi, hl], Or.inr ⟨info, hi, hl, by simp [enterHandler, hi, hl]⟩⟩

/-- Witness for `c9_enter_refusal`: "B" (in "general", with a pending
knock on record in `stK1`) tries `/enter secret`; the locked room is
refused and the state is untouched. -/
theorem c9_witness :
    (get_room_info stK1.db "secret" = none ∨
     ∃ info, get_room_info stK1.db "secret" = some info ∧ info.locked = true) ∧
    ((enterHandler stK1 2 "B" "secret").1 = stK1 ∧
     ((get_room_info stK1.db "secret" = none ∧
         (enterHandler stK1 2 "B" "secret").2 = [.sendTo 2 (.roomNotFound "secret")]) ∨
      (∃ info, get_room_info stK1.db "secret" = some info ∧ info.locked = true ∧
         (enterHandler stK1 2 "B" "secret").2 = [.sendTo 2 (.roomLocked "secret")]))) :=
  ⟨Or.inr ⟨⟨"secret", true, some "A"⟩, by decide, by decide⟩,
   c9_enter_refusal stK1 2 "B" "secret"
     (Or.inr ⟨⟨"secret", true, some "A"⟩, by decide, by decide⟩)⟩

/-- Inserting below every element of a list appends at the end. -/
theorem orderedInsert_eq_append {α : Type} (r : α → α → Prop) [DecidableRel r] (a : α) :
    ∀ xs : List α, (∀ x ∈ xs, ¬ r a x) → List.orderedInsert r a xs = xs ++ [a]
  | [], _ => rfl
  | b :: l, h => by
    have hb : ¬ r a b := h b (by simp)
    simp only [List.orderedInsert, if_neg hb, List.cons_append, List.cons.injEq, true_and]
    exact orderedInsert_eq_append r a l (fun x hx => h x (by simp [hx]))

/-- Sorting a strictly time-ascending message list in descending time
order reverses it: the SQL `ORDER BY created_at DESC` on the append-only
store is reversal. -/
theorem insertionSort_desc_eq_reverse :
    ∀ l : List MsgRec, l.Pairwise (fun a b => a.time < b.time) →
      List.insertionSort (fun a b => b.time ≤ a.time) l = l.reverse
  | [], _ => rfl
  | a :: t, h => by
    have ha := (List.pairwise_cons.mp h).1
    have ht := (List.pairwise_cons.mp h).2
    have ih := insertionSort_desc_eq_reverse t ht
    simp only [List.insertionSort, ih, List.reverse_cons]
    exact orderedInsert_eq_append _ a t.reverse
      (fun x hx => Nat.not_le.mpr (ha x (List.mem_reverse.mp hx)))

/-- With strictly ascending stored times, the history query takes the last
`limit` matching rows in order. -/
theorem get_room_history_of_ascending (db : DB) (roomName : String) (limit : Nat)
    (h : db.messages.Pairwise (fun a b => a.time < b.time)) :
    get_room_history db roomName limit =
      ((db.messages.filter (historyRowOk db roomName)).reverse.take limit).reverse := by
  unfold get_room_history
  rw [insertionSort_desc_eq_reverse _ (h.sublist (List.filter_sublist _))]

/-- C2 (counterexample): in room "g" of `st21`, holding 21 chat messages
and no whispers, `/history` displays only 20 messages — the source queries
with limit 20 (server.py line 372), not the claimed 50, so the oldest
chat message is dropped. -/
theorem c2_counterexample :
    (displayedHistory st21 "u").length = 20 ∧
    (claimHistory50 st21.db "g").length = 21 ∧
    displayedHistory st21 "u" ≠ claimHistory50 st21.db "g" := by
  decide

/-- C2 (amended): `/history` displays, in strictly time-ascending order,
the non-whisper messages among the (at most) 20 most recent messages of
any type of the caller's current room — whispers are excluded from display
but still consume the 20-row limit — and a room whose history query is
empty yields the no-history reply rather than an error. -/
theorem c2_history_amended (st : ServerState) (w : Nat) (sender : String)
    (h : st.db.messages.Pairwise (fun a b => a.time < b.time)) :
    displayedHistory st sender =
      ((st.db.messages.filter (historyRowOk st.db (currentRoomOf st sender))).reverse.take
        20).reverse.filter (fun m => !(m.mtype == "whisper")) ∧
    (displayedHistory st sender).Pairwise (fun a b => a.time < b.time) ∧
    (∀ m ∈ displayedHistory st sender, m.mtype ≠ "whisper") ∧
    (historyHandler st w sender = [.sendTo w (.noHistory (currentRoomOf st sender))] ↔
      st.db.messages.filter (historyRowOk st.db (currentRoomOf st sender)) = []) := by
  have hq := get_room_history_of_ascending st.db (currentRoomOf st sender) 20 h
  have hshow : displayedHistory st sender =
      ((st.db.messages.filter (historyRowOk st.db (currentRoomOf st sender))).reverse.take
        20).reverse.filter (fun m => !(m.mtype == "whisper")) := by
    unfold displayedHistory
    rw [hq]
  refine ⟨hshow, ?_, ?_, ?_⟩
  · have hsub : List.Sublist (displayedHistory st sender)
        (st.db.messages.filter (historyRowOk st.db (currentRoomOf st sender))) := by
      rw [hshow]
      have h1 : List.Sublist
          (((st.db.messages.filter (historyRowOk st.db (currentRoomOf st sender))).reverse.take
            20).reverse)
          (st.db.messages.filter (historyRowOk st.db (currentRoomOf st sender))) := by
        have := (List.take_sublist 20
          (st.db.messages.filter (historyRowOk st.db (currentRoomOf st sender))).reverse).reverse
        simpa using this
      exact (List.filter_sublist _).trans h1
    exact (h.sublist (List.filter_sublist _)).sublist hsub
  · intro m hm
    rw [hshow] at hm
    have := List.of_mem_filter hm
    simpa using this
  · have hiff : get_room_history st.db (currentRoomOf st sender) 20 = [] ↔
        st.db.messages.filter (historyRowOk st.db (currentRoomOf st sender)) = [] := by
      rw [hq]
      simp [List.take_eq_nil_iff]
    by_cases hh : get_room_history st.db (currentRoomOf st sender) 20 = []
    · simp [historyHandler, hh, hiff.mp hh]
    · have : ¬ st.db.messages.filter (historyRowOk st.db (currentRoomOf st sender)) = [] :=
        fun hc => hh (hiff.mpr hc)
      simp [historyHandler, hh, this]

/-- Witness for `c2_history_amended` on `st21` (21 stored chat messages). -/
theorem c2_witness :
    st21.db.messages.Pairwise (fun a b => a.time < b.time) ∧
    (displayedHistory st21 "u" =
      ((st21.db.messages.filter (historyRowOk st21.db (currentRoomOf st21 "u"))).reverse.take
        20).reverse.filter (fun m => !(m.mtype == "whisper")) ∧
     (displayedHistory st21 "u").Pairwise (fun a b => a.time < b.time) ∧
     (∀ m ∈ displayedHistory st21 "u", m.mtype ≠ "whisper") ∧
     (historyHandler st21 1 "u" = [.sendTo 1 (.noHistory (currentRoomOf st21 "u"))] ↔
       st21.db.messages.filter (historyRowOk st21.db (currentRoomOf st21 "u")) = [])) :=
  ⟨by decide, c2_history_amended st21 1 "u" (by decide)⟩

/-- C6 (counterexample): disconnecting a user whose current room is the
empty-named room (state `stE`, reachable via `/room --locked`) removes the
clients entry but releases neither the persistent membership nor the
username-to-room binding: the Python truthiness guard
`if current_room:` (server.py line 49) skips both, contradicting the
claimed release on every exit path. -/
theorem c6_counterexample :
    clientUser stE 1 = some "u" ∧
    (disconnectWriter stE 1).1.db.memberships = [⟨"", "u", true⟩] ∧
    lookup (disconnectWriter stE 1).1.userRooms "u" = some "" ∧
    (disconnectWriter stE 1).1.clients = [] := by
  decide

/-- C6 (amended): on disconnect of a connection bound to a user whose
current room name is non-empty (always the case unless the empty-named
room was created through the `/room` parsing quirk), the registry holds no
entry for the connection, the user's membership rows in their last room
and their room binding are released, exactly one departure notice is
broadcast to that room, and a second disconnect of the same writer is a
no-op — so every exit path funnelling into `Server._disconnect` (the
`finally` block, server.py lines 467-468) produces exactly one departure
broadcast. -/
theorem c6_disconnect_cleanup (st : ServerState) (w : Nat) (u : String)
    (hc : clientUser st w = some u) (hr : currentRoomOf st u ≠ "") :
    clientUser (disconnectWriter st w).1 w = none ∧
    (∀ row ∈ (disconnectWriter st w).1.db.memberships,
      ¬(row.user = u ∧ row.room = currentRoomOf st u)) ∧
    lookup (disconnectWriter st w).1.userRooms u = none ∧
    (disconnectWriter st w).2 =
      [.bcast (currentRoomOf st u) (.leftDisconnect u (currentRoomOf st u)) none] ∧
    disconnectWriter (disconnectWriter st w).1 w = ((disconnectWriter st w).1, []) := by
  simp only [currentRoomOf] at hr ⊢
  have hmain : disconnectWriter st w =
      ({ db := (leave_room st.db u (lookupD st.userRooms u "general")).1,
         clients := st.clients.filter (fun p => !(p.1 == w)),
         activeUsers := st.activeUsers.filter (fun x => !(x == u)),
         userRooms := removeKey st.userRooms u },
       [Act.bcast (lookupD st.userRooms u "general")
         (Tmpl.leftDisconnect u (lookupD st.userRooms u "general")) none]) := by
    simp only [disconnectWriter, hc]
    simp [hr]
  have hfindC : (st.clients.filter (fun p => !(p.1 == w))).find? (fun p => p.1 == w) = none := by
    rw [List.find?_eq_none]
    intro p hp
    simpa using (List.mem_filter.mp hp).2
  have hfindR : (st.userRooms.filter (fun p => !(p.1 == u))).find? (fun p => p.1 == u) = none := by
    rw [List.find?_eq_none]
    intro p hp
    simpa using (List.mem_filter.mp hp).2
  rw [hmain]
  refine ⟨?_, ?_, ?_, rfl, ?_⟩
  · simp [clientUser, hfindC]
  · intro row hrow
    simp only [leave_room] at hrow
    have hpred := (List.mem_filter.mp hrow).2
    rintro ⟨h1, h2⟩
    simp [h1, h2] at hpred
  · simp [lookup, removeKey, hfindR]
  · simp [disconnectWriter, clientUser, hfindC]

/-- Witness for `c6_disconnect_cleanup`: user "u" in "general" (`st0`)
disconnects. -/
theorem c6_witness :
    (clientUser st0 1 = some "u" ∧ currentRoomOf st0 "u" ≠ "") ∧
    (clientUser (disconnectWriter st0 1).1 1 = none ∧
     (∀ row ∈ (disconnectWriter st0 1).1.db.memberships,
       ¬(row.user = "u" ∧ row.room = currentRoomOf st0 "u")) ∧
     lookup (disconnectWriter st0 1).1.userRooms "u" = none ∧
     (disconnectWriter st0 1).2 =
       [.bcast (currentRoomOf st0 "u") (.leftDisconnect "u" (currentRoomOf st0 "u")) none] ∧
     disconnectWriter (disconnectWriter st0 1).1 1 = ((disconnectWriter st0 1).1, [])) :=
  ⟨⟨by decide, by decide⟩, c6_disconnect_cleanup st0 1 "u" (by decide) (by decide)⟩

/-- Server.join_room never touches the connection registry or the active
set: only the store and the room binding change. -/
theorem serverJoinRoom_registry (st : ServerState) (u r : String) (h : Bool) :
    (serverJoinRoom st u r h).1.clients = st.clients ∧
    (serverJoinRoom st u r h).1.activeUsers = st.activeUsers := by
  unfold serverJoinRoom
  by_cases hj : (join_room st.db u r h).2 <;> simp [hj]

/-- Membership in the active set survives `set.add`. -/
theorem mem_insertUser_of_mem {l : List String} {a u : String} (h : a ∈ l) :
    a ∈ insertUser l u := by
  unfold insertUser
  by_cases hu : u ∈ l <;> simp [hu, h]

/-- The added username is in the active set after `set.add`. -/
theorem mem_insertUser_self (l : List String) (u : String) : u ∈ insertUser l u := by
  unfold insertUser
  by_cases hu : u ∈ l <;> simp [hu]

/-- C8: an authentication attempt with a username that already occupies a
live session is rejected before the password prompt with the retryable
"already online" reply, leaving the whole state — the first session's
registry entry, current room and connection included — unchanged; and the
registration discipline preserves registry well-formedness, so a username
occupies at most one live session at any time. -/
theorem c8_live_username_rejected (st : ServerState) (w : Nat) (u pw : String)
    (hwf : RegistryWF st) :
    (u ∈ st.activeUsers →
      authAttempt st w u pw = (st, [.sendTo w (.alreadyOnline u)], .rejectedLive)) ∧
    RegistryWF (authAttempt st w u pw).1 := by
  by_cases hu : u ∈ st.activeUsers
  · refine ⟨fun _ => by simp [authAttempt, hu], ?_⟩
    simp [authAttempt, hu, hwf]
  · refine ⟨fun hc => absurd hc hu, ?_⟩
    have hreg : ∀ st1 : ServerState,
        st1.clients = st.clients ++ [(w, u)] →
        st1.activeUsers = insertUser st.activeUsers u →
        RegistryWF st1 := by
      intro st1 hcl hac
      constructor
      · rw [hcl]
        have hnotin : u ∉ st.clients.map (fun p => p.2) := by
          intro hmem
          obtain ⟨p, hp, hpu⟩ := List.mem_map.mp hmem
          exact hu (hpu ▸ hwf.2 p hp)
        simp [List.nodup_append, hwf.1, hnotin]
      · intro p hp
        rw [hcl] at hp
        rw [hac]
        rcases List.mem_append.mp hp with hp | hp
        · exact mem_insertUser_of_mem (hwf.2 p hp)
        · simp at hp
          subst hp
          exact mem_insertUser_self _ _
    unfold authAttempt
    simp only [if_neg hu]
    cases hauth : authenticate_user st.db u pw with
    | some info =>
      simp only []
      have hj := serverJoinRoom_registry
        { st with clients := st.clients ++ [(w, u)],
                  activeUsers := insertUser st.activeUsers u } u "general" false
      exact hreg _ hj.1 hj.2
    | none =>
      by_cases hex : user_exists st.db u
      · simp only [hex, Bool.not_true]
        simp
        exact hwf
      · rw [Bool.not_eq_true] at hex
        have hcr : (create_user st.db u pw).2 = true := by
          simp [create_user, hex]
        have hj := serverJoinRoom_registry
          { st with db := (create_user st.db u pw).1,
                    clients := st.clients ++ [(w, u)],
                    activeUsers := insertUser st.activeUsers u } u "general" false
        have hres := hreg _ hj.1 hj.2
        simpa [hex, hcr] using hres

/-- Witness for `c8_live_username_rejected`: a second connection (writer 9)
tries to take the live name "u" of `st0`. -/
theorem c8_witness :
    RegistryWF st0 ∧
    (("u" ∈ st0.activeUsers →
       authAttempt st0 9 "u" "zz" = (st0, [.sendTo 9 (.alreadyOnline "u")], .rejectedLive)) ∧
     RegistryWF (authAttempt st0 9 "u" "zz").1) :=
  ⟨by decide, c8_live_username_rejected st0 9 "u" "zz" (by decide)⟩

/-- A duplicate-free list all of whose elements coincide has at most one
element. -/
theorem length_le_one_of_nodup_const {α : Type} {l : List α} {a : α}
    (hn : l.Nodup) (ha : ∀ x ∈ l, x = a) : l.length ≤ 1 := by
  match l with
  | [] => simp
  | [x] => simp
  | x :: y :: t =>
    exfalso
    have hx := ha x (by simp)
    have hy := ha y (by simp)
    have : x ∉ y :: t := (List.nodup_cons.mp hn).1
    exact this (by rw [hx, hy]; simp)

/-- Under the per-user invariant a user holds at most one membership row. -/
theorem memCount_le_one_of_inv (st : ServerState) (u : String) (h : Inv st u) :
    memCount st u ≤ 1 := by
  have hlen : memCount st u =
      ((st.db.memberships.filter (fun r => r.user == u)).map
        (fun r => (r.room, r.user))).length := by
    simp [memCount]
  rw [hlen]
  refine length_le_one_of_nodup_const (a := (currentRoomOf st u, u)) ?_ ?_
  · exact h.2.2.sublist ((List.filter_sublist _).map _)
  · intro x hx
    obtain ⟨row, hrow, rfl⟩ := List.mem_map.mp hx
    have hu : row.user = u := by simpa using (List.mem_filter.mp hrow).2
    have hr : row.room = currentRoomOf st u :=
      h.1 row (List.mem_filter.mp hrow).1 hu
    rw [hr, hu]

/-- Lookup after overwriting an existing binding. -/
theorem lookup_map_overwrite (k v : String) : ∀ m : List (String × String),
    (m.find? (fun p => p.1 == k)).isSome →
    lookup (m.map (fun p => if p.1 == k then (k, v) else p)) k = some v
  | [], h => by simp at h
  | p :: t, h => by
    by_cases hp : p.1 = k
    · simp [lookup, List.find?_cons, hp]
    · have h' : (t.find? (fun p => p.1 == k)).isSome := by
        rw [List.find?_cons] at h
        have hb : (p.1 == k) = false := by simp [hp]
        rw [hb] at h
        exact h
      have ih := lookup_map_overwrite k v t h'
      simp only [List.map_cons]
      simp only [lookup, List.find?_cons] at ih ⊢
      have hb : ((if p.1 == k then (k, v) else p).1 == k) = false := by simp [hp]
      rw [hb]
      exact ih

/-- Lookup after appending a fresh binding. -/
theorem lookup_append_self (k v : String) (m : List (String × String))
    (h : m.find? (fun p => p.1 == k) = none) :
    lookup (m ++ [(k, v)]) k = some v := by
  unfold lookup
  rw [List.find?_append, h]
  simp

/-- Python dict assignment binds the key. -/
theorem lookup_setKey_self (m : List (String × String)) (k v : String) :
    lookup (setKey m k v) k = some v := by
  unfold setKey
  by_cases hf : (m.find? (fun p => p.1 == k)).isSome
  · rw [if_pos hf]
    exact lookup_map_overwrite k v m hf
  · rw [if_neg hf]
    exact lookup_append_self k v m (Option.not_isSome_iff_eq_none.mp hf)

/-- A failed `join_room` leaves the store untouched. -/
theorem join_room_fail (db : DB) (u r : String) (h : Bool)
    (hf : (join_room db u r h).2 = false) : (join_room db u r h).1 = db := by
  unfold join_room at hf ⊢
  by_cases hc : user_exists db u && (get_room_info db r).isSome
  · rw [if_pos hc] at hf
    by_cases ha : db.memberships.any (fun row => row.room == r && row.user == u)
    · rw [if_pos ha] at hf
      simp at hf
    · rw [if_neg ha] at hf
      simp at hf
  · rw [if_neg hc]

/-- A failed `create_room` leaves the store untouched. -/
theorem create_room_fail (db : DB) (n : String) (lk : Bool) (cr : Option String)
    (hf : (create_room db n lk cr).2 = false) : (create_room db n lk cr).1 = db := by
  unfold create_room at hf ⊢
  by_cases hc : (get_room_info db n).isSome
  · rw [if_pos hc]
  · rw [if_neg hc] at hf
    simp at hf

/-- After the leave step the acting user holds no membership row, and the
rest of the relevant state is unchanged. -/
theorem inv_after_leave (st : ServerState) (u : String) (h : Inv st u) :
    (∀ r ∈ (leaveCurrentStep st u).1.db.memberships, ¬ r.user = u) ∧
    (leaveCurrentStep st u).1.userRooms = st.userRooms ∧
    (leaveCurrentStep st u).1.db.rooms = st.db.rooms ∧
    (leaveCurrentStep st u).1.db.users = st.db.users ∧
    ((leaveCurrentStep st u).1.db.memberships.map (fun r => (r.room, r.user))).Nodup ∧
    memCount (leaveCurrentStep st u).1 u = 0 := by
  have hcur : currentRoomOf st u ≠ "" := h.2.1
  have hstep : (leaveCurrentStep st u).1 =
      { st with db := (leave_room st.db u (currentRoomOf st u)).1 } := by
    unfold leaveCurrentStep
    rw [if_pos hcur]
  rw [hstep]
  have hnou : ∀ r ∈ (leave_room st.db u (currentRoomOf st u)).1.memberships,
      ¬ r.user = u := by
    intro r hr hu
    simp only [leave_room] at hr
    have hpred := (List.mem_filter.mp hr).2
    have hroom := h.1 r (List.mem_filter.mp hr).1 hu
    simp [hroom, hu] at hpred
  refine ⟨hnou, rfl, rfl, rfl, ?_, ?_⟩
  · simp only [leave_room]
    exact h.2.2.sublist ((List.filter_sublist _).map _)
  · simp only [memCount]
    rw [List.filter_eq_nil_iff.mpr (fun r hr => by simpa using hnou r hr)]
    rfl

/-- After the join step the user's membership rows are exactly one row in
the new room, and the invariant holds again (also when the join fails). -/
theorem inv_after_join (st1 : ServerState) (u name : String) (hh : Bool)
    (hname : name ≠ "")
    (hcur : currentRoomOf st1 u ≠ "")
    (hnou : ∀ r ∈ st1.db.memberships, ¬ r.user = u)
    (hnd : (st1.db.memberships.map (fun r => (r.room, r.user))).Nodup) :
    Inv (serverJoinRoom st1 u name hh).1 u ∧
    memCount (serverJoinRoom st1 u name hh).1 u ≤ 1 := by
  unfold serverJoinRoom
  by_cases hok : (join_room st1.db u name hh).2
  · rw [if_pos hok]
    have hany : st1.db.memberships.any (fun row => row.room == name && row.user == u) = false := by
      rw [List.any_eq_false]
      intro row hrow
      simp [hnou row hrow]
    have hjoin : (join_room st1.db u name hh).1 =
        { st1.db with memberships := st1.db.memberships ++ [⟨name, u, hh⟩] } := by
      unfold join_room at hok ⊢
      by_cases hc : user_exists st1.db u && (get_room_info st1.db name).isSome
      · rw [if_pos hc] at hok ⊢
        rw [hany] at hok ⊢
        simp at hok ⊢
      · rw [if_neg hc] at hok
        simp at hok
    rw [hjoin]
    have hlook : currentRoomOf
        { st1 with db := { st1.db with memberships := st1.db.memberships ++ [⟨name, u, hh⟩] },
                   userRooms := setKey st1.userRooms u name } u = name := by
      simp only [currentRoomOf, lookupD]
      rw [lookup_setKey_self]
      rfl
    refine ⟨⟨?_, ?_, ?_⟩, ?_⟩
    · intro r hr hu
      simp only [List.mem_append] at hr
      rcases hr with hr | hr
      · exact absurd hu (hnou r hr)
      · simp at hr
        rw [hlook, hr]
    · rw [hlook]
      exact hname
    · simp only [List.map_append]
      have hnotin : ((name, u) : String × String) ∉
          st1.db.memberships.map (fun r => (r.room, r.user)) := by
        intro hmem
        obtain ⟨row, hrow, hpair⟩ := List.mem_map.mp hmem
        have : row.user = u := congrArg Prod.snd hpair
        exact hnou row hrow this
      simp [List.nodup_append, hnd, hnotin]
    · simp only [memCount]
      rw [List.filter_append]
      rw [List.filter_eq_nil_iff.mpr (fun r hr => by simpa using hnou r hr)]
      simp
  · rw [if_neg hok]
    have hdb := join_room_fail st1.db u name hh (Bool.not_eq_true _ ▸ eq_false_of_ne_true hok)
    rw [hdb]
    refine ⟨⟨?_, hcur, hnd⟩, ?_⟩
    · intro r hr hu
      exact absurd hu (hnou r hr)
    · simp only [memCount]
      rw [List.filter_eq_nil_iff.mpr (fun r hr => by simpa using hnou r hr)]
      simp

/-- Creating a room does not change membership rows. -/
theorem create_room_memberships (db : DB) (n : String) (lk : Bool) (cr : Option String) :
    (create_room db n lk cr).1.memberships = db.memberships := by
  unfold create_room
  split <;> rfl

/-- Creating a room does not change the user table. -/
theorem create_room_users (db : DB) (n : String) (lk : Bool) (cr : Option String) :
    (create_room db n lk cr).1.users = db.users := by
  unfold create_room
  split <;> rfl

/-- The invariant only depends on memberships and the room binding. -/
theorem inv_db_ext (st : ServerState) (u : String) (db' : DB) (h : Inv st u)
    (hm : db'.memberships = st.db.memberships) : Inv { st with db := db' } u := by
  refine ⟨?_, h.2.1, ?_⟩
  · intro r hr hu
    simp only [hm] at hr
    exact h.1 r hr hu
  · simp only [hm]
    exact h.2.2

/-- Leave-before-join composite: the intermediate state holds no
membership row of the user, and the invariant is re-established after the
join (whether or not the join succeeds). -/
theorem leave_join_inv (st : ServerState) (u name : String) (hh : Bool)
    (h : Inv st u) (hname : name ≠ "") :
    memCount (leaveCurrentStep st u).1 u ≤ 1 ∧
    Inv (serverJoinRoom (leaveCurrentStep st u).1 u name hh).1 u ∧
    memCount (serverJoinRoom (leaveCurrentStep st u).1 u name hh).1 u ≤ 1 := by
  obtain ⟨hnou, hur, _, _, hnd, hcount⟩ := inv_after_leave st u h
  have hcur : currentRoomOf (leaveCurrentStep st u).1 u = currentRoomOf st u := by
    unfold currentRoomOf lookupD lookup
    rw [hur]
  have hj := inv_after_join (leaveCurrentStep st u).1 u name hh hname
    (by rw [hcur]; exact h.2.1) hnou hnd
  exact ⟨by rw [hcount]; exact Nat.zero_le 1, hj.1, hj.2⟩

/-- Micro-states of the create/leave/join sequence of `/room` with a
non-empty room name keep the user at a single membership row and
re-establish the invariant. -/
theorem roomCreateJoin_inv (st : ServerState) (u name : String) (lk : Bool)
    (h : Inv st u) (hname : name ≠ "") :
    (∀ s ∈ roomCreateJoin st u name lk, memCount s u ≤ 1) ∧
    Inv ((roomCreateJoin st u name lk).getLastD st) u := by
  unfold roomCreateJoin
  by_cases hex : (get_room_info st.db name).isSome
  · refine ⟨?_, ?_⟩
    · intro s hs
      simp [hex] at hs
      rw [hs]
      exact memCount_le_one_of_inv st u h
    · simpa [hex] using h
  · by_cases hok : (create_room st.db name lk (some u)).2
    · have hA : Inv { st with db := (create_room st.db name lk (some u)).1 } u :=
        inv_db_ext st u _ h (create_room_memberships _ _ _ _)
      have hlj := leave_join_inv { st with db := (create_room st.db name lk (some u)).1 }
        u name true hA hname
      refine ⟨?_, ?_⟩
      · intro s hs
        simp [hex, hok] at hs
        rcases hs with rfl | rfl | rfl
        · exact memCount_le_one_of_inv _ u hA
        · exact hlj.1
        · exact hlj.2.2
      · simpa [hex, hok] using hlj.2.1
    · rw [Bool.not_eq_true] at hok
      have hdb : (create_room st.db name lk (some u)).1 = st.db :=
        create_room_fail st.db name lk (some u) hok
      have hA : Inv { st with db := (create_room st.db name lk (some u)).1 } u :=
        inv_db_ext st u _ h (by rw [hdb])
      refine ⟨?_, ?_⟩
      · intro s hs
        simp [hex, hok] at hs
        rw [hs]
        exact memCount_le_one_of_inv _ u hA
      · simpa [hex, hok] using hA

/-- Every micro-state of a well-named room change keeps the user at a
single membership row, and the invariant survives the command. -/
theorem cmdStep_inv (st : ServerState) (u : String) (c : Cmd)
    (h : Inv st u) (hg : goodCmd c) :
    (∀ s ∈ cmdTrace st u c, memCount s u ≤ 1) ∧ Inv (cmdFinal st u c) u := by
  cases c with
  | enter name =>
    have hname : name ≠ "" := hg
    have hlj := leave_join_inv st u name false h hname
    unfold cmdFinal cmdTrace enterTrace
    cases hroom : get_room_info st.db name with
    | none =>
      refine ⟨?_, ?_⟩
      · intro s hs
        simp [hroom] at hs
        rw [hs]
        exact memCount_le_one_of_inv st u h
      · simpa [hroom] using h
    | some info =>
      by_cases hl : info.locked
      · refine ⟨?_, ?_⟩
        · intro s hs
          simp [hroom, hl] at hs
          rw [hs]
          exact memCount_le_one_of_inv st u h
        · simpa [hroom, hl] using h
      · rw [Bool.not_eq_true] at hl
        refine ⟨?_, ?_⟩
        · intro s hs
          simp [hroom, hl] at hs
          rcases hs with rfl | rfl
          · exact hlj.1
          · exact hlj.2.2
        · simpa [hroom, hl] using hlj.2.1
  | mkRoom line =>
    have hname : roomNameOf (pySplitWs line) ≠ [] := hg
    have hmk : String.mk (roomNameOf (pySplitWs line)) ≠ "" := by
      intro hs
      exact hname (congrArg String.data hs)
    have hrcj := roomCreateJoin_inv st u (String.mk (roomNameOf (pySplitWs line)))
      ((pySplitWs line).contains ("--locked".data)) h hmk
    unfold cmdFinal cmdTrace roomTrace
    by_cases hlen : (pySplitWs line).length < 2
    · refine ⟨?_, ?_⟩
      · intro s hs
        simp [hlen] at hs
        rw [hs]
        exact memCount_le_one_of_inv st u h
      · simpa [hlen] using h
    · refine ⟨?_, ?_⟩
      · intro s hs
        simp only [if_neg hlen] at hs
        exact hrcj.1 s hs
      · simp only [if_neg hlen]
        exact hrcj.2

/-- C1 (counterexample): starting from `st0` ("u" in "general" with one
membership row), the two-command sequence `/room --locked` then
`/enter general` leaves user "u" with two persistent membership rows —
in the empty-named room and in "general" — because the leave step is
skipped when the current room name "" is falsy (server.py lines 322, 360).
This refutes the claim that every room change removes the previous
membership first. -/
theorem c1_counterexample :
    Inv st0 "u" ∧
    memCount
      (cmdFinal (cmdFinal st0 "u" (Cmd.mkRoom ("/room --locked".data))) "u"
        (Cmd.enter "general")) "u" = 2 := by
  decide

/-- C1 (amended): for every user and every sequence of `/room` and
`/enter` commands in which each `/room` line parses to a non-empty room
name, at most one persistent membership row exists for the user at every
point, including the intermediate point between the leave and the join of
each room change (the leave always precedes the join).  Without the
non-empty-name proviso the property fails (see the counterexample): a
`/room` line parsing to the empty name creates and joins the empty-named
room, after which the falsy-string guard skips the leave step. -/
theorem c1_membership_at_most_one (st : ServerState) (u : String) (cmds : List Cmd)
    (hinv : Inv st u) (hgood : ∀ c ∈ cmds, goodCmd c) :
    ∀ s ∈ st :: runStates st u cmds, memCount s u ≤ 1 := by
  induction cmds generalizing st with
  | nil =>
    intro s hs
    simp [runStates] at hs
    rw [hs]
    exact memCount_le_one_of_inv st u hinv
  | cons c cs ih =>
    intro s hs
    have hstep := cmdStep_inv st u c hinv (hgood c (by simp))
    rcases List.mem_cons.mp hs with rfl | hs2
    · exact memCount_le_one_of_inv s u hinv
    · rw [runStates] at hs2
      rcases List.mem_append.mp hs2 with h3 | h3
      · exact hstep.1 s h3
      · exact ih (cmdFinal st u c) hstep.2 (fun c' hc' => hgood c' (by simp [hc']))
          s (List.mem_cons_of_mem _ h3)

/-- Witness for `c1_membership_at_most_one`: "u" runs `/room cats` then
`/enter general` from `st0`. -/
theorem c1_witness :
    (Inv st0 "u" ∧
     ∀ c ∈ [Cmd.mkRoom ("/room cats".data), Cmd.enter "general"], goodCmd c) ∧
    (∀ s ∈ st0 :: runStates st0 "u" [Cmd.mkRoom ("/room cats".data), Cmd.enter "general"],
      memCount s "u" ≤ 1) :=
  ⟨⟨by decide, by decide⟩,
   c1_membership_at_most_one st0 "u" [Cmd.mkRoom ("/room cats".data), Cmd.enter "general"]
     (by decide) (by decide)⟩

/-- Structure of a successful single-space split. -/
theorem splitOnceSpace_some : ∀ (s a r : List Char),
    splitOnceSpace s = (a, some r) → s = a ++ ' ' :: r
  | [], a, r, h => by simp [splitOnceSpace] at h
  | ch :: rest, a, r, h => by
    by_cases hc : ch = ' '
    · rw [splitOnceSpace, if_pos hc] at h
      injection h with h1 h2
      injection h2 with h2
      subst h1
      subst h2
      rw [hc]
      rfl
    · rw [splitOnceSpace, if_neg hc] at h
      injection h with h1 h2
      have hx : splitOnceSpace rest = ((splitOnceSpace rest).1, some r) := by
        rw [← h2]
      have ih := splitOnceSpace_some rest (splitOnceSpace rest).1 r hx
      rw [← h1, List.cons_append, ← ih]

/-- Structure of a three-part `split(' ', 2)`. -/
theorem pySplitSpace2_three (s a b c : List Char)
    (h : pySplitSpace2 s = [a, b, c]) : s = a ++ ' ' :: (b ++ ' ' :: c) := by
  rcases h1 : splitOnceSpace s with ⟨x, o⟩
  cases o with
  | none =>
    simp only [pySplitSpace2, h1] at h
    simp at h
  | some r1 =>
    rcases h2 : splitOnceSpace r1 with ⟨y, o2⟩
    cases o2 with
    | none =>
      simp only [pySplitSpace2, h1, h2] at h
      simp at h
    | some r2 =>
      simp only [pySplitSpace2, h1, h2] at h
      have hx : x = a := by
        have := congrArg (fun l => List.getD l 0 ([] : List Char)) h
        simpa using this
      have hy : y = b := by
        have := congrArg (fun l => List.getD l 1 ([] : List Char)) h
        simpa using this
      have hr : r2 = c := by
        have := congrArg (fun l => List.getD l 2 ([] : List Char)) h
        simpa using this
      rw [hx] at h1
      rw [hy, hr] at h2
      rw [splitOnceSpace_some s a r1 h1, splitOnceSpace_some r1 b c h2]

/-- Head of a non-empty `dropWhile` result fails the predicate. -/
theorem dropWhile_head_false {α : Type} (p : α → Bool) (l : List α) (d : α) (t : List α)
    (h : l.dropWhile p = d :: t) : p d = false := by
  induction l with
  | nil => simp at h
  | cons a l ih =>
    rw [List.dropWhile_cons] at h
    by_cases ha : p a
    · rw [if_pos ha] at h
      exact ih h
    · rw [if_neg ha] at h
      injection h with h1 _
      rw [← h1]
      simpa using ha

/-- The stripped line is empty or ends in a non-whitespace character. -/
theorem pyStrip_reverse_head (raw : List Char) :
    pyStrip raw = [] ∨
    ∃ d t, (pyStrip raw).reverse = d :: t ∧ isWs d = false := by
  unfold pyStrip
  cases hX : (raw.dropWhile isWs).reverse.dropWhile isWs with
  | nil =>
    left
    rfl
  | cons d t =>
    right
    exact ⟨d, t, by rw [List.reverse_reverse], dropWhile_head_false isWs _ d t hX⟩

/-- Stripping keeps a list ending in a non-whitespace character
non-empty. -/
theorem pyStrip_ne_nil_of_last (c : List Char) (d : Char) (t' : List Char)
    (hcr : c.reverse = d :: t') (hd : isWs d = false) : pyStrip c ≠ [] := by
  unfold pyStrip
  intro hcontra
  rw [List.reverse_eq_nil_iff] at hcontra
  have hall := List.dropWhile_eq_nil_iff.mp hcontra
  cases hdw : c.dropWhile isWs with
  | nil =>
    have hall2 := List.dropWhile_eq_nil_iff.mp hdw
    have hdm : d ∈ c := by
      have : d ∈ c.reverse := by rw [hcr]; simp
      exact List.mem_reverse.mp this
    rw [hall2 d hdm] at hd
    simp at hd
  | cons e es =>
    have hsplit : c.takeWhile isWs ++ (e :: es) = c := by
      rw [← hdw]
      exact List.takeWhile_append_dropWhile isWs c
    have hrev2 : c.reverse = (e :: es).reverse ++ (c.takeWhile isWs).reverse := by
      conv in c.reverse => rw [← hsplit]
      rw [List.reverse_append]
    have hne : (e :: es).reverse ≠ [] := by simp
    have hh : ((e :: es).reverse ++ (c.takeWhile isWs).reverse).head? =
        ((e :: es).reverse).head? := List.head?_append_of_ne_nil _ hne
    have hsome : ((e :: es).reverse).head? = some d := by
      rw [← hh, ← hrev2, hcr]
      rfl
    have hdm2 : d ∈ (e :: es).reverse := by
      cases hx : (e :: es).reverse with
      | nil => exact absurd hx hne
      | cons d0 rest =>
        rw [hx] at hsome
        injection hsome with hsome
        rw [← hsome]
        simp
    have hdm3 : d ∈ (c.dropWhile isWs).reverse := by
      rw [hdw]
      exact hdm2
    rw [hall d hdm3] at hd
    simp at hd

/-- Dead-code fact behind the `/whisper` handler: because the input line
is stripped before dispatch (server.py line 224), a three-part
`split(' ', 2)` always yields a third part with non-empty strip — the
"whisper cannot be empty" branch is unreachable. -/
theorem pyStrip_third_nonempty (raw a b c : List Char)
    (hsplit : pySplitSpace2 (pyStrip raw) = [a, b, c]) : pyStrip c ≠ [] := by
  have hdec := pySplitSpace2_three _ a b c hsplit
  rcases pyStrip_reverse_head raw with hnil | ⟨d, t, hrev, hd⟩
  · rw [hnil] at hdec
    exact absurd hdec (by simp)
  · have hlast : (pyStrip raw).getLast? = some d := by
      rw [← List.head?_reverse, hrev]
      rfl
    rw [hdec, List.getLast?_append_cons, ← List.cons_append,
      List.getLast?_append_cons] at hlast
    cases hc : c with
    | nil =>
      rw [hc] at hlast
      simp at hlast
      rw [← hlast] at hd
      simp [isWs] at hd
    | cons c0 cs =>
      rw [hc, List.getLast?_cons_cons] at hlast
      have hrevc : c.reverse.head? = some d := by
        rw [List.head?_reverse, hc]
        exact hlast
      cases hx : c.reverse with
      | nil =>
        rw [hx] at hrevc
        simp at hrevc
      | cons d0 rest =>
        rw [hx] at hrevc
        injection hrevc with hrevc
        rw [← hc]
        exact pyStrip_ne_nil_of_last c d rest (by rw [hx, hrevc]) hd

/-- C7: for every parsed `/whisper <user> <text>` command (a stripped
line splitting into three parts), the whisper is delivered to the target
(via the target's resolved writer) if and only if the target is a live
session whose current room equals the sender's current room; whenever the
target's current room does not match — offline, unknown, or online in a
different room — the sender receives exactly one local error reply and
nothing is delivered.  The "empty whisper" branch is dead code because the
dispatcher strips the line first (`pyStrip_third_nonempty`). -/
theorem c7_whisper_delivery_iff (st : ServerState) (w : Nat) (sender : String)
    (raw a t c : List Char)
    (hwf : ∀ u ∈ st.activeUsers, (st.clients.find? (fun p => p.2 == u)).isSome = true)
    (hsplit : pySplitSpace2 (pyStrip raw) = [a, t, c]) :
    ((∃ tw, getWriter st (String.mk t) = some tw ∧
        Act.sendTo tw (Tmpl.whisperDeliver (currentRoomOf st sender) sender (String.mk c)) ∈
          (whisperHandler st w sender (pyStrip raw)).2) ↔
      (String.mk t ∈ st.activeUsers ∧
        lookup st.userRooms (String.mk t) = some (currentRoomOf st sender))) ∧
    (lookup st.userRooms (String.mk t) ≠ some (currentRoomOf st sender) →
      (whisperHandler st w sender (pyStrip raw)).2 =
        [.sendTo w (.userNotFound (String.mk t))]) := by
  have hcne : pyStrip c ≠ [] := pyStrip_third_nonempty raw a t c hsplit
  have hlen : ¬ (([a, t, c] : List (List Char)).length < 3) := by simp
  by_cases hcond : String.mk t ∉ st.activeUsers ∨
      lookup st.userRooms (String.mk t) ≠ some (currentRoomOf st sender)
  · have hacts : (whisperHandler st w sender (pyStrip raw)).2 =
        [.sendTo w (.userNotFound (String.mk t))] := by
      simp only [whisperHandler]
      rw [hsplit]
      rw [if_neg hlen]
      simp only [List.getD_cons_zero, List.getD_cons_succ]
      rw [if_pos hcond]
    refine ⟨?_, fun _ => hacts⟩
    constructor
    · rintro ⟨tw, _, hmem⟩
      rw [hacts] at hmem
      simp at hmem
    · rintro ⟨h1, h2⟩
      exfalso
      rcases hcond with hc | hc
      · exact hc h1
      · exact hc h2
  · push_neg at hcond
    obtain ⟨hin, hroom⟩ := hcond
    have hws := hwf _ hin
    obtain ⟨pr, hpr⟩ := Option.isSome_iff_exists.mp hws
    have hgw : getWriter st (String.mk t) = some pr.1 := by
      unfold getWriter
      rw [if_pos hin, hpr]
      rfl
    have hnotcond : ¬ (String.mk t ∉ st.activeUsers ∨
        lookup st.userRooms (String.mk t) ≠ some (currentRoomOf st sender)) := by
      push_neg
      exact ⟨hin, hroom⟩
    have hacts : (whisperHandler st w sender (pyStrip raw)).2 =
        [.sendTo pr.1 (.whisperDeliver (currentRoomOf st sender) sender (String.mk c)),
         .sendTo w (.whisperEcho (String.mk t) (String.mk c))] := by
      simp only [whisperHandler]
      rw [hsplit]
      rw [if_neg hlen]
      simp only [List.getD_cons_zero, List.getD_cons_succ]
      rw [if_neg hnotcond]
      rw [if_neg hcne]
      rw [hgw]
    refine ⟨?_, fun hcon => absurd hroom hcon⟩
    constructor
    · intro _
      exact ⟨hin, hroom⟩
    · intro _
      refine ⟨pr.1, hgw, ?_⟩
      rw [hacts]
      simp

/-- Witness for `c7_whisper_delivery_iff`: "A" whispers to "B", both in
"general" in `stW`; the whisper is delivered to writer 2. -/
theorem c7_witness :
    ((∀ u ∈ stW.activeUsers, (stW.clients.find? (fun p => p.2 == u)).isSome = true) ∧
     pySplitSpace2 (pyStrip ("/whisper B hi".data)) =
       [("/whisper".data), ("B".data), ("hi".data)]) ∧
    (((∃ tw, getWriter stW (String.mk ("B".data)) = some tw ∧
        Act.sendTo tw (Tmpl.whisperDeliver (currentRoomOf stW "A") "A"
          (String.mk ("hi".data))) ∈
          (whisperHandler stW 1 "A" (pyStrip ("/whisper B hi".data))).2) ↔
      (String.mk ("B".data) ∈ stW.activeUsers ∧
        lookup stW.userRooms (String.mk ("B".data)) = some (currentRoomOf stW "A"))) ∧
     (lookup stW.userRooms (String.mk ("B".data)) ≠ some (currentRoomOf stW "A") →
      (whisperHandler stW 1 "A" (pyStrip ("/whisper B hi".data))).2 =
        [.sendTo 1 (.userNotFound (String.mk ("B".data)))])) :=
  ⟨⟨by decide, by decide⟩,
   c7_whisper_delivery_iff stW 1 "A" ("/whisper B hi".data)
     ("/whisper".data) ("B".data) ("hi".data) (by decide) (by decide)⟩

end Spacecat
